import Mathlib

/-!
Verification development for the hf-hub Go download-and-cache engine
(package `hub`: `file_download.go`, `hub.go`, `snapshot_download.go`).

The Go code is shallowly embedded: pure helpers become Lean functions,
stateful code becomes explicit state passing over a `CacheState` record,
network and OS interactions are abstracted as oracles supplied to the
model.  Every definition is translated from the Go source; the one
definition written from the specification text (`etagFromSpec`) is
clearly marked as such.
-/

set_option autoImplicit false
set_option maxRecDepth 16000

deriving instance DecidableEq for Except

namespace HfHub

/-! ## Path and string helpers (models of `path/filepath` and `strings` usage) -/

/-- Model of `strings.Split` on a single-character separator (written
structurally over the character list so that it evaluates inside the
kernel).  `strings.Split("", sep)` is `[""]`, as in Go. -/
def splitOnChar (sep : Char) : List Char → List (List Char)
  | [] => [[]]
  | c :: cs =>
    let r := splitOnChar sep cs
    if c = sep then [] :: r
    else
      match r with
      | [] => [[c]]
      | h :: t => (c :: h) :: t

/-- Model of `filepath.Join` on two already-clean components: empty
components collapse, otherwise the parts are joined with `/`. -/
def joinPath (a b : String) : String :=
  if a = "" then b else if b = "" then a else a ++ "/" ++ b

/-- Model of `filepath.Dir` for relative clean paths: drop the last
`/`-separated component; a single component yields `.`. -/
def parentDir (p : String) : String :=
  let parts := splitOnChar '/' p.data
  if parts.length ≤ 1 then "." else String.mk (List.intercalate ['/'] parts.dropLast)

/-- `strings.Trim`-style trimming of both ends of a character list, done
leading end first, exactly as `strings.TrimSpace`/`strings.Trim` behave. -/
def trimBoth (p : Char → Bool) (s : String) : String :=
  String.mk (((s.toList.dropWhile p).reverse.dropWhile p).reverse)

/-- `strings.HasPrefix` on character lists (second argument is the
prefix pattern). -/
def hasLead : List Char → List Char → Bool
  | _, [] => true
  | [], _ :: _ => false
  | c :: cs, p :: ps => c = p && hasLead cs ps

/-- Model of `normalizeETag` (`file_download.go`):
`strings.TrimPrefix(strings.TrimSpace(etag), "W/")` then
`strings.Trim(etag, "\"")`. -/
def normalizeETag (etag : String) : String :=
  let t := trimBoth Char.isWhitespace etag
  let t := if hasLead t.data ['W', '/'] then String.mk (t.data.drop 2) else t
  trimBoth (fun c => c = '\"') t

/-- Modelled from the spec: "ETag values are normalized by stripping a
weak-validator prefix and surrounding quotes" after removing surrounding
whitespace.  Written independently of the source translation: both ends
are stripped trailing end first, and the whitespace set is spelled out. -/
def specStripEnds (p : Char → Bool) (l : List Char) : List Char :=
  (l.reverse.dropWhile p).reverse.dropWhile p

/-- Spec-side whitespace set. -/
def specIsSpace (c : Char) : Bool :=
  c = ' ' || c = '\t' || c = '\r' || c = '\n'

/-- Spec-side ETag normalization (see `specStripEnds`): the weak
marker is removed by comparing the first two characters with `take`. -/
def etagFromSpec (s : String) : String :=
  let ws := specStripEnds specIsSpace s.data
  let nw := if ws.take 2 = ['W', '/'] then ws.drop 2 else ws
  String.mk (specStripEnds (fun c => c = '\"') nw)

/-- Decimal digit accumulator for `atoi`. -/
def digitsVal (acc : Nat) : List Char → Option Nat
  | [] => some acc
  | c :: cs => if c.isDigit then digitsVal (acc * 10 + (c.toNat - 48)) cs else none

/-- Parse a non-empty all-digit character list. -/
def parseDigits : List Char → Option Nat
  | [] => none
  | l => digitsVal 0 l

/-- Model of `strconv.Atoi`: optional sign followed by decimal digits. -/
def atoi (s : String) : Option Int :=
  match s.data with
  | '-' :: rest => (parseDigits rest).map (fun n => -(n : Int))
  | '+' :: rest => (parseDigits rest).map (fun n => (n : Int))
  | l => (parseDigits l).map (fun n => (n : Int))

/-- The regular expression `^[0-9a-f]{40}$` (`CommitHashPattern`). -/
def isHexLower (c : Char) : Bool :=
  c.isDigit || ('a' ≤ c && c ≤ 'f')

/-- `regexp.MustCompile(CommitHashPattern).MatchString`. -/
def isCommitHash (s : String) : Bool :=
  s.length = 40 && s.toList.all isHexLower

/-- Model of `repoFolderName` (`file_download.go`): prepend `<type>s` to
the `/`-separated repo id parts and join everything with `--`. -/
def repoFolderName (repoId repoType : String) : String :=
  String.mk (List.intercalate ['-', '-'] ((repoType ++ "s").data :: splitOnChar '/' repoId.data))

/-- Split a character list at the first `://`, if any. -/
def splitSchemeSep : List Char → Option (List Char × List Char)
  | ':' :: '/' :: '/' :: rest => some ([], rest)
  | c :: cs => (splitSchemeSep cs).map (fun pr => (c :: pr.1, pr.2))
  | [] => none

/-- Host component of a raw URL as `net/url.Parse` exposes it: non-empty
only when the URL carries a `://` authority part (so a relative
`Location` such as `/path` has an empty host). -/
def hostOf (u : String) : String :=
  match splitSchemeSep u.data with
  | none => ""
  | some (_, rest) => String.mk (rest.takeWhile (fun c => c ≠ '/'))

/-- Character-level worker for `canonicalHeaderKey`; the boolean records
whether the next letter starts a word (start of key or after `-`). -/
def canonChars : List Char → Bool → List Char
  | [], _ => []
  | c :: cs, up => (if up then c.toUpper else c.toLower) :: canonChars cs (c = '-')

/-- Model of Go's `textproto.CanonicalMIMEHeaderKey`, which
`http.Header.Set` applies to every key it stores. -/
def canonicalHeaderKey (s : String) : String :=
  String.mk (canonChars s.toList true)

/-! ## File metadata extraction (`getFileMetadata`, `file_download.go`) -/

/-- The `HfFileMetadata` struct (`hub.go`). -/
structure HfFileMetadata where
  commitHash : String
  etag : String
  location : String
  size : Int
  deriving Repr, DecidableEq

/-- The response headers `getFileMetadata` reads; `http.Header.Get`
returns `""` for an absent header, so absence is the empty string. -/
structure HeadResponse where
  xRepoCommit : String
  xLinkedEtag : String
  etagHeader : String
  xLinkedSize : String
  contentLength : String
  location : String
  requestUrl : String
  deriving Repr, DecidableEq

/-- Model of `getFileMetadata` (`file_download.go` lines 703-745): ETag
prefers `X-Linked-Etag` over `ETag`, size prefers `X-Linked-Size` over
`Content-Length`, `strconv.Atoi` failure aborts, the stored ETag is
normalized, and the location falls back to the request URL. -/
def getFileMetadata (r : HeadResponse) : Option HfFileMetadata :=
  let etag := if r.xLinkedEtag ≠ "" then r.xLinkedEtag else r.etagHeader
  let sizeStr := if r.xLinkedSize ≠ "" then r.xLinkedSize else r.contentLength
  match atoi sizeStr with
  | none => none
  | some size =>
    some { commitHash := r.xRepoCommit
           etag := normalizeETag etag
           location := if r.location ≠ "" then r.location else r.requestUrl
           size := size }

/-! ## The streaming download loop (`HttpGet`, `file_download.go` lines 95-203) -/

/-- `DefaultRetries` (`hub.go`). -/
def DefaultRetries : Nat := 5

/-- One `r.Body.Read` outcome inside the streaming loop: a chunk of `n`
bytes read without error, or a non-`EOF` read error.  Exhausting the
list models the read that returns `io.EOF` (the loop's `break`). -/
inductive ReadEvent where
  | chunk (n : Nat)
  | readErr
  deriving Repr, DecidableEq

/-- The response one GET attempt observes: the parsed `Content-Length`
header (`none` models a `strconv.Atoi` failure), whether that failure
is an `http.ErrHandlerTimeout`, and the body read sequence. -/
structure AttemptResponse where
  contentLength : Option Int
  timeoutErr : Bool
  reads : List ReadEvent
  deriving Repr

/-- The errors `HttpGet` can return. -/
inductive GetError where
  | maxRetries
  | contentLengthErr
  | totalMismatch (expected actual : Int)
  | readFailure
  | consistency (expected : Int) (actual : Nat)
  deriving Repr, DecidableEq

/-- The `for` loop of `HttpGet`: `written` is `newResumeSize`, `nb` is
`nbRetries`.  At the top of each iteration `nbRetries <= 0` is fatal;
a chunk that writes at least one byte resets the budget to `5`; a
zero-byte chunk leaves it unchanged; after `EOF` the final size is
checked against `expectedSize` (when non-zero). -/
def streamLoop (expectedSize : Int) : List ReadEvent → Nat → Nat → Except GetError Nat
  | _, _, 0 => .error .maxRetries
  | [], written, _ + 1 =>
    if expectedSize ≠ 0 ∧ (written : Int) ≠ expectedSize then
      .error (.consistency expectedSize written)
    else .ok written
  | .chunk n :: rest, written, nb + 1 =>
    if n > 0 then streamLoop expectedSize rest (written + n) 5
    else streamLoop expectedSize rest written (nb + 1)
  | .readErr :: _, _, _ + 1 => .error .readFailure

/-- Model of `HttpGet` (`file_download.go` lines 95-203).  `resp k` is
the response to the `k`-th attempt (the function re-issues the request
on its retry path).  When `Content-Length` fails to parse, a positive
budget and a timeout-class error trigger a recursive retry with one
fewer attempt; `nbRetries <= 0` is the fatal "Max retries exceeded"
error.  When it parses, `resumeSize + contentLength` must equal
`expectedSize`, and the stream loop runs with the same budget. -/
def httpGet (resp : Nat → AttemptResponse) (resumeSize : Nat) (expectedSize : Int) :
    Nat → Nat → Except GetError Nat
  | attempt, nb =>
    match (resp attempt).contentLength with
    | none =>
      match nb with
      | 0 => .error .maxRetries
      | k + 1 =>
        if (resp attempt).timeoutErr then
          httpGet resp resumeSize expectedSize (attempt + 1) k
        else .error .contentLengthErr
    | some cl =>
      if (resumeSize : Int) + cl ≠ expectedSize then
        .error (.totalMismatch expectedSize ((resumeSize : Int) + cl))
      else streamLoop expectedSize (resp attempt).reads resumeSize nb

/-! ## The request wrapper (`requestWrapper`, `file_download.go` lines 219-279) -/

/-- The response surface `requestWrapper` inspects. -/
structure WireResponse where
  status : Nat
  location : String
  deriving Repr, DecidableEq

/-- One request attempt (`http.NewRequest` + `client.Do`).  `serve` is
the network oracle: for a well-formed URL the attempt may yield a
response or fail with any error the oracle chooses.  A URL with no
`://` authority — in particular the target `requestWrapper` rebuilds
from a relative `Location`, whose `url.URL` has empty scheme and host —
always fails in `client.Do` ("unsupported protocol scheme"), and the
model forces that failure. -/
def doReq (serve : String → Except String WireResponse) (u : String) :
    Except String WireResponse :=
  if hostOf u = "" then .error "unsupported protocol scheme" else serve u

/-- Fuel-indexed model of `requestWrapper`.  With
`followRelativeRedirects` set, the function first performs the request
without following; an error from that request propagates (`return nil,
err`); when the answer is a 3xx whose `Location` has no host component
it recurses on the relative target (the `url.URL` rebuild keeps only
path and query, so the next URL is the relative location itself);
otherwise it falls through and issues the request once more.  `none`
means the fuel was exhausted before the call completed; the theorems
show a fixed fuel always suffices. -/
def requestWrapperFuel (serve : String → Except String WireResponse) :
    Nat → String → Bool → Option (Except String WireResponse)
  | 0, _, _ => none
  | fuel + 1, url, follow =>
    if follow then
      match requestWrapperFuel serve fuel url false with
      | none => none
      | some (.error e) => some (.error e)
      | some (.ok r) =>
        if 300 ≤ r.status ∧ r.status ≤ 399 ∧ hostOf r.location = "" then
          requestWrapperFuel serve fuel r.location true
        else some (doReq serve url)
    else some (doReq serve url)

/-! ## Cache filesystem state

The on-disk cache is modelled as a finite map from paths to file
contents (contents are only inspected for `refs/` files), together with
counters for transfer attempts and network requests issued. -/

structure CacheState where
  files : List (String × String)
  transfers : Nat
  netOps : Nat
  deriving Repr, DecidableEq

/-- First-match association lookup (the model's map read). -/
def lookupStr {β : Type} : List (String × β) → String → Option β
  | [], _ => none
  | (k, v) :: t, q => if q = k then some v else lookupStr t q

/-- Remove every entry with the given key (the model's map delete). -/
def removeKey {β : Type} : List (String × β) → String → List (String × β)
  | [], _ => []
  | (k, v) :: t, p => if k = p then removeKey t p else (k, v) :: removeKey t p

def fsLookup (s : CacheState) (p : String) : Option String :=
  lookupStr s.files p

def fsExists (s : CacheState) (p : String) : Bool :=
  (fsLookup s p).isSome

/-- `os.WriteFile` / file creation: the new entry shadows any old one. -/
def fsWrite (s : CacheState) (p c : String) : CacheState :=
  { s with files := (p, c) :: s.files }

/-- `os.Remove`. -/
def fsRemove (s : CacheState) (p : String) : CacheState :=
  { s with files := removeKey s.files p }

/-- `os.Rename src dst` (no-op when the source is missing; the Go error
return at such call sites is either impossible or discarded). -/
def fsRename (s : CacheState) (src dst : String) : CacheState :=
  match fsLookup s src with
  | none => s
  | some c => fsWrite (fsRemove s src) dst c

/-- One network request issued. -/
def bumpNet (s : CacheState) : CacheState :=
  { s with netOps := s.netOps + 1 }

/-- One content-transfer attempt started (which is also a request). -/
def bumpTransfer (s : CacheState) : CacheState :=
  { s with transfers := s.transfers + 1, netOps := s.netOps + 1 }

/-- The repository manifest (`HFModelInfo`, `hub.go`); `siblings` is
`Option` because the Go slice can be `nil`. -/
structure ModelInfo where
  sha : String
  siblings : Option (List String)
  deriving Repr, DecidableEq

/-- Everything the environment decides: the metadata the HEAD request
produces (`none` = fetch failed), the `sha` field served by the
`api/models` endpoint, the per-attempt GET responses for the streaming
download, the `os.Stat` size oracle used by `checkDiskSpace`, and the
`getModelInfo` outcome for snapshot downloads. -/
structure Oracle where
  meta : Option HfFileMetadata
  sha : String
  resp : Nat → AttemptResponse
  statSize : String → Option Int
  modelInfo : Option ModelInfo
  offlineErr : Bool

/-! ## Disk space guard (`checkDiskSpace`, `file_download.go` lines 385-406) -/

/-- Model of `checkDiskSpace`: stats the parent directory of the target
and that directory's parent, failing when either reported size is below
the expected transfer size (the Go code compares `fileInfo.Size()` of
the directory, which the `statSize` oracle models), then re-checks that
the directory exists. -/
def checkDiskSpace (stat : String → Option Int) (expectedSize : Int) (targetPath : String) :
    Except String Unit :=
  let targetDir := parentDir targetPath
  match stat targetDir with
  | none => .error "stat failed"
  | some sz =>
    if sz < expectedSize then .error "not enough free disk space to download the file"
    else
      match stat (parentDir targetDir) with
      | none => .error "stat failed"
      | some sz2 =>
        if sz2 < expectedSize then .error "not enough free disk space to download the file"
        else if (stat targetDir).isNone then .error "targetDir does not exist"
        else .ok ()

/-! ## Download engine (`downloadToTmpAndMove`, `file_download.go` lines 281-364) -/

/-- Model of `downloadToTmpAndMove`.  Faithful to the source: when the
destination already exists and the download is not forced, nothing
happens; otherwise a stale `.incomplete` file is deleted only under
`forceDownload`, the staging file is opened (created when missing) and
its length is the resume offset, the two `checkDiskSpace` results are
computed and *discarded*, `HttpGet` is called with a retry budget of 5,
its error is only printed, and the staging file is unconditionally
renamed onto the destination with a `nil` return. -/
def downloadToTmpAndMove (o : Oracle) (s : CacheState)
    (incompletePath destinationPath : String) (expectedSize : Int) (forceDownload : Bool) :
    Except String Unit × CacheState :=
  if fsExists s destinationPath && !forceDownload then (.ok (), s)
  else
    let s1 := if fsExists s incompletePath && forceDownload then fsRemove s incompletePath else s
    let s2 := if fsExists s1 incompletePath then s1 else fsWrite s1 incompletePath ""
    let resumeSize := ((fsLookup s2 incompletePath).getD "").length
    let _diskTmp : Except String Unit :=
      if expectedSize ≠ 0 then checkDiskSpace o.statSize expectedSize incompletePath else .ok ()
    let _diskDst : Except String Unit :=
      if expectedSize ≠ 0 then checkDiskSpace o.statSize expectedSize destinationPath else .ok ()
    let s3 := bumpTransfer s2
    let _getResult : Except GetError Nat :=
      httpGet o.resp resumeSize expectedSize 0 DefaultRetries
    (.ok (), fsRename s3 incompletePath destinationPath)

/-! ## Link materializer (`createSymlink`) -/

/-- Net filesystem effect of `createSymlink` on a capable filesystem:
the destination pointer comes to exist (fresh symlink, or `ErrExist`
treated as success when it is already there); every fallback branch
(rename for a new blob, copy otherwise) also ends with the destination
existing. -/
def createSymlink (s : CacheState) (src dst : String) : CacheState :=
  if fsExists s dst then s else fsWrite s dst ("link:" ++ src)

/-- Model of `cacheCommitHashForSpecificRevision`: when the revision is
not itself the commit hash, (re)write `refs/<revision>` so that it
contains the commit hash.  Its error return is ignored by the caller in
`fileDownload`, so only the state is produced. -/
def cacheCommitHashForSpecificRevision (s : CacheState)
    (storageFolder revision commitHash : String) : CacheState :=
  if revision ≠ commitHash then
    let refPath := joinPath (joinPath storageFolder "refs") revision
    match fsLookup s refPath with
    | none => fsWrite s refPath commitHash
    | some content => if content ≠ commitHash then fsWrite s refPath commitHash else s
  else s

/-! ## Single-file resolver (`fileDownload`, `file_download.go` lines 523-701) -/

structure HFClient where
  cacheDir : String
  userAgent : String
  deriving Repr, DecidableEq

structure HfRepo where
  id : String
  type : String
  revision : String
  deriving Repr, DecidableEq

structure HfFile where
  fileName : String
  subFolder : String
  revision : String
  repo : HfRepo
  deriving Repr, DecidableEq

/-- The repo-type guard at the top of `fileDownload` (line 532): all
three repo types pass. -/
def validFileRepoType (t : String) : Bool :=
  t = "space" || t = "dataset" || t = "model"

/-- `fileName` after the subfolder join (`fileDownload` lines 528-530). -/
def resolvedFileName (file : HfFile) : String :=
  if file.subFolder ≠ "" then file.subFolder ++ "/" ++ file.fileName else file.fileName

/-- `storageFolder` (`fileDownload` line 542). -/
def storageFolderOf (client : HFClient) (file : HfFile) : String :=
  joinPath client.cacheDir (repoFolderName file.repo.id file.repo.type)

/-- `snapshotPath` (`fileDownload` line 548). -/
def snapshotPathOf (client : HFClient) (file : HfFile) : String :=
  joinPath (storageFolderOf client file) "snapshots"

/-- The commit-hash-revision fast-path pointer (`fileDownload` line 552). -/
def fastPointerOf (client : HFClient) (file : HfFile) : String :=
  joinPath (joinPath (snapshotPathOf client file) file.revision) (resolvedFileName file)

/-- `pointerPath` for a resolved commit hash (`fileDownload` lines 651, 663). -/
def pointerPathOf (client : HFClient) (file : HfFile) (commitHash : String) : String :=
  joinPath (joinPath (snapshotPathOf client file) commitHash) (resolvedFileName file)

/-- `refPath` (`fileDownload` line 634). -/
def refPathOf (client : HFClient) (file : HfFile) : String :=
  joinPath (joinPath (storageFolderOf client file) "refs") file.revision

/-- `blobPath` (`fileDownload` line 662). -/
def blobPathOf (client : HFClient) (file : HfFile) (etag : String) : String :=
  joinPath (joinPath (storageFolderOf client file) "blobs") etag

/-- Model of `fileDownload`.  Header handling (the `Authorization`
strip) has no effect on control flow or cache state and is modelled
separately (`stripAuthIfCrossHost`); the HEAD and `api/models` requests
are counted in `netOps` and answered by the oracle.  The branch
returning `(.ok "", ...)` reproduces the source exactly: when the
metadata commit hash does not match the commit-hash pattern and the
`refs/<revision>` file exists, `os.Stat`'s `nil` error reaches
`if !errors.Is(err, os.ErrNotExist)` and the function returns `"", nil`. -/
def fileDownload (o : Oracle) (client : HFClient) (file : HfFile)
    (forceDownload localFilesOnly : Bool) (s : CacheState) :
    Except String String × CacheState :=
  if !validFileRepoType file.repo.type then
    (.error ("invalid repo type: " ++ file.repo.type), s)
  else
    if isCommitHash file.revision && fsExists s (fastPointerOf client file) && !forceDownload then
      (.ok (fastPointerOf client file), s)
    else
      let s1 := bumpNet s
      match o.meta with
      | none => (.error "error while retrieving file metadata", s1)
      | some meta0 =>
        let metaPair : HfFileMetadata × CacheState :=
          if meta0.commitHash = "" then
            ({ meta0 with commitHash := o.sha }, bumpNet s1)
          else (meta0, s1)
        let meta := metaPair.1
        let s2 := metaPair.2
        if !(localFilesOnly || meta.etag ≠ "") then
          (.error "error while retrieving file metadata", s2)
        else
          if meta.commitHash ≠ "" && !isCommitHash meta.commitHash
              && fsExists s2 (refPathOf client file) then
            (.ok "", s2)
          else
            let commitHash :=
              if meta.commitHash ≠ "" && isCommitHash meta.commitHash then meta.commitHash
              else ""
            let pointerPath := pointerPathOf client file commitHash
            if commitHash ≠ "" && fsExists s2 pointerPath && !forceDownload then
              (.ok pointerPath, s2)
            else
              let blobPath := blobPathOf client file meta.etag
              let s3 := cacheCommitHashForSpecificRevision s2 (storageFolderOf client file)
                          file.revision commitHash
              if !forceDownload && fsExists s3 pointerPath then (.ok pointerPath, s3)
              else if !forceDownload && fsExists s3 blobPath then
                (.ok pointerPath, createSymlink s3 blobPath pointerPath)
              else
                let incompletePath := blobPath ++ ".incomplete"
                match downloadToTmpAndMove o s3 incompletePath blobPath meta.size forceDownload with
                | (.error e, s4) => (.error e, s4)
                | (.ok _, s4) => (.ok pointerPath, createSymlink s4 blobPath pointerPath)

/-! ## Snapshot orchestrator (`snapshotDownload`, `snapshot_download.go`;
`SnapshotDownload`, `hub.go`) -/

/-- `repo.File(fileName)` (`hub.go`): subfolder empty, revision copied
from the repo. -/
def mkFile (repo : HfRepo) (fileName : String) : HfFile :=
  { fileName := fileName, subFolder := "", revision := repo.revision, repo := repo }

/-- Model of `snapshotDownload`.  `getModelInfo` checks the repo type
before any request, then issues one unconditional network call (there
is no `localFilesOnly` guard around it); a non-offline error aborts,
an offline error leaves `modelInfo == nil` and triggers the cached
`refs`/`snapshots` fallback; after the fallback misses, `localFilesOnly`
is a fatal error; otherwise the manifest drives one `fileDownload` per
sibling whose errors are dropped (spawned goroutines), and the snapshot
folder is returned. -/
def snapshotDownload (o : Oracle) (client : HFClient) (repo : HfRepo)
    (forceDownload localFilesOnly : Bool) (s : CacheState) :
    Except String String × CacheState :=
  if repo.type ≠ "model" then (.error ("invalid repo type: " ++ repo.type), s)
  else
    let s1 := bumpNet s
    if o.modelInfo.isNone && !o.offlineErr then (.error "getModelInfo failed", s1)
    else
      let storageFolder := joinPath client.cacheDir (repoFolderName repo.id repo.type)
      let refPath := joinPath (joinPath storageFolder "refs") repo.revision
      let cached : Option (Except String String) :=
        match o.modelInfo with
        | some _ => none
        | none =>
          if isCommitHash repo.revision then
            let folder := joinPath (joinPath storageFolder "snapshots") repo.revision
            if fsExists s1 folder then some (.ok folder) else none
          else
            match fsLookup s1 refPath with
            | some content =>
              let folder := joinPath (joinPath storageFolder "snapshots") content
              if content ≠ "" && fsExists s1 folder then some (.ok folder) else none
            | none => some (.error "ref file not found")
      match cached with
      | some r => (r, s1)
      | none =>
        if localFilesOnly then
          (.error "cannot find an appropriate cached snapshot folder for the specified revision on the local disk and outgoing traffic has been disabled. To enable repo look-ups and downloads online, set localFilesOnly to false", s1)
        else
          match o.modelInfo with
          | none => (.error "nil model info dereferenced", s1)
          | some mi =>
            if mi.sha = "" then (.error "no sha found for this model", s1)
            else
              match mi.siblings with
              | none => (.error "no siblings found for this model", s1)
              | some sibs =>
                let commitHash := mi.sha
                let snapshotFolder := joinPath (joinPath storageFolder "snapshots") commitHash
                let s2 :=
                  if repo.revision ≠ commitHash && fsExists s1 refPath then
                    fsWrite s1 refPath commitHash
                  else s1
                let s3 := sibs.foldl
                  (fun st f =>
                    (fileDownload o client (mkFile repo f) forceDownload localFilesOnly st).2)
                  s2
                (.ok snapshotFolder, s3)

/-- Model of the public `SnapshotDownload` method (`hub.go` lines
329-335): every repo type other than `model` is rejected before
`snapshotDownload` runs. -/
def SnapshotDownload (o : Oracle) (client : HFClient) (repo : HfRepo)
    (forceDownload localFilesOnly : Bool) (s : CacheState) :
    Except String String × CacheState :=
  if repo.type ≠ "model" then (.error ("invalid repo type: " ++ repo.type), s)
  else snapshotDownload o client repo forceDownload localFilesOnly s

/-! ## Request headers for the download (`fileDownload` lines 563,
608-627; `getFileMetadata` lines 704-705; `requestWrapper` lines
263-272) -/

/-- `DefaultUserAgent` (`hub.go`). -/
def defaultUserAgent : String := "unknown/None; hf-hub/0.0.1"

/-- Go map assignment `headers[k] = v`. -/
def setHeader (hs : List (String × String)) (k v : String) : List (String × String) :=
  (k, v) :: removeKey hs k

/-- The headers map `fileDownload` builds (line 563). -/
def fileDownloadHeaders (userAgent : String) : List (String × String) :=
  [("User-Agent", userAgent)]

/-- `getFileMetadata` mutates the same map: it overwrites `User-Agent`
with `DefaultUserAgent` and sets `Accept-Encoding: identity`. -/
def mutateForMetadata (hs : List (String × String)) : List (String × String) :=
  setHeader (setHeader hs "User-Agent" defaultUserAgent) "Accept-Encoding" "identity"

/-- The strip step (`fileDownload` lines 608-623): when the metadata
location differs from the resolve URL and their hosts differ,
`delete(headers, "authorization")`. -/
def stripAuthIfCrossHost (hs : List (String × String)) (location hfUrl : String) :
    List (String × String) :=
  if location ≠ hfUrl then
    if hostOf location ≠ hostOf hfUrl then removeKey hs "authorization"
    else hs
  else hs

/-- The headers map passed to the download GET in `fileDownload`. -/
def downloadHeaders (userAgent location hfUrl : String) : List (String × String) :=
  stripAuthIfCrossHost (mutateForMetadata (fileDownloadHeaders userAgent)) location hfUrl

/-- Whether the HTTP request built by `requestWrapper` (which stores
each map entry with `req.Header.Set`, canonicalizing the key) carries a
header with the given canonical name. -/
def carriesHeader (hs : List (String × String)) (canonical : String) : Bool :=
  hs.any (fun kv => canonicalHeaderKey kv.1 = canonical)

/-! ## Concrete fixtures

Closed instances used by the demonstrations and witnesses below. -/

/-- Empty cache, no transfers, no network traffic. -/
def stEmpty : CacheState := { files := [], transfers := 0, netOps := 0 }

/-- A well-formed 40-hex commit hash. -/
def hash40 : String := "aaaaaaaaaaaaaaaaaaaaaaaaaaaaaaaaaaaaaaaa"

def clientC1 : HFClient := { cacheDir := "cache", userAgent := "ua" }

def fileC1 : HfFile :=
  { fileName := "config.json", subFolder := "", revision := "main",
    repo := { id := "org/model", type := "model", revision := "main" } }

/-- Metadata the HEAD request reports for `config.json`. -/
def metaC1 : HfFileMetadata :=
  { commitHash := hash40, etag := "e1",
    location := "https://huggingface.co/org/model/resolve/main/config.json",
    size := 12 }

/-- Server for `config.json`: metadata promises 12 bytes, the stream
delivers a single 7-byte chunk and then ends. -/
def oC1 : Oracle :=
  { meta := some metaC1
    sha := ""
    resp := fun _ => { contentLength := some 12, timeoutErr := false, reads := [.chunk 7] }
    statSize := fun _ => some 1000000000
    modelInfo := none
    offlineErr := false }

def ptrC1 : String :=
  "cache/models--org--model/snapshots/aaaaaaaaaaaaaaaaaaaaaaaaaaaaaaaaaaaaaaaa/config.json"

def blobC1 : String := "cache/models--org--model/blobs/e1"

/-- The cache state after the first `config.json` download. -/
def s1C8 : CacheState := (fileDownload oC1 clientC1 fileC1 false false stEmpty).2

def fileC2 : HfFile :=
  { fileName := "weights.bin", subFolder := "", revision := "main",
    repo := { id := "org/model2", type := "model", revision := "main" } }

/-- Server for `weights.bin`: metadata promises 20 bytes, the stream
delivers a single 5-byte chunk and then ends. -/
def oC2 : Oracle :=
  { meta := some { commitHash := hash40, etag := "e2",
                   location := "https://huggingface.co/org/model2/resolve/main/weights.bin",
                   size := 20 }
    sha := ""
    resp := fun _ => { contentLength := some 20, timeoutErr := false, reads := [.chunk 5] }
    statSize := fun _ => some 1000000000
    modelInfo := none
    offlineErr := false }

def ptrC2 : String :=
  "cache/models--org--model2/snapshots/aaaaaaaaaaaaaaaaaaaaaaaaaaaaaaaaaaaaaaaa/weights.bin"

def repoC5 : HfRepo := { id := "org/model", type := "model", revision := "main" }

/-- Snapshot server: the manifest request succeeds (network up). -/
def oC5 : Oracle :=
  { oC1 with modelInfo := some { sha := hash40, siblings := some [] } }

/-- Stat oracle reporting only 3 bytes available everywhere. -/
def oC9 : Oracle := { oC1 with statSize := fun _ => some 3 }

/-- A server that answers every request with `300` and a relative
`Location`, which Go's `http.Client` hands back to `requestWrapper`
unfollowed. -/
def alwaysRedirect : String → Except String WireResponse :=
  fun _ => .ok { status := 300, location := "/loop" }

/-- Every attempt fails to parse `Content-Length` with a timeout-class
error: zero forward progress. -/
def respAllTimeout : Nat → AttemptResponse :=
  fun _ => { contentLength := none, timeoutErr := true, reads := [] }

/-- A HEAD response with both specialized headers present, a weak
quoted ETag, and a `Location`. -/
def rC4 : HeadResponse :=
  { xRepoCommit := "c", xLinkedEtag := "  W/\"abc\"  ", etagHeader := "\"zzz\"",
    xLinkedSize := "12", contentLength := "7", location := "L", requestUrl := "R" }

def mC4 : HfFileMetadata :=
  { commitHash := "c", etag := "abc", location := "L", size := 12 }

/-! ## Infrastructure lemmas -/

theorem lookupStr_removeKey_ne {β : Type} (l : List (String × β)) (p q : String) (h : q ≠ p) :
    lookupStr (removeKey l p) q = lookupStr l q := by
  induction l with
  | nil => rfl
  | cons kv t ih =>
    obtain ⟨k, v⟩ := kv
    by_cases hk : k = p
    · rw [removeKey, if_pos hk, ih, lookupStr, if_neg (hk ▸ h)]
    · rw [removeKey, if_neg hk, lookupStr, lookupStr]
      by_cases hqk : q = k
      · rw [if_pos hqk, if_pos hqk]
      · rw [if_neg hqk, if_neg hqk, ih]

theorem lookupStr_removeKey_self {β : Type} (l : List (String × β)) (p : String) :
    lookupStr (removeKey l p) p = none := by
  induction l with
  | nil => rfl
  | cons kv t ih =>
    obtain ⟨k, v⟩ := kv
    by_cases hk : k = p
    · rw [removeKey, if_pos hk, ih]
    · rw [removeKey, if_neg hk, lookupStr, if_neg (fun he => hk he.symm), ih]

theorem fsLookup_write_self (s : CacheState) (p c : String) :
    fsLookup (fsWrite s p c) p = some c := by
  simp [fsLookup, fsWrite, lookupStr]

theorem fsLookup_write_ne (s : CacheState) (p c q : String) (h : q ≠ p) :
    fsLookup (fsWrite s p c) q = fsLookup s q := by
  simp [fsLookup, fsWrite, lookupStr, h]

theorem fsExists_write_self (s : CacheState) (p c : String) :
    fsExists (fsWrite s p c) p = true := by
  simp [fsExists, fsLookup_write_self]

theorem fsExists_write_ne (s : CacheState) (p c q : String) (h : q ≠ p) :
    fsExists (fsWrite s p c) q = fsExists s q := by
  simp [fsExists, fsLookup_write_ne s p c q h]

theorem fsExists_remove_ne (s : CacheState) (p q : String) (h : q ≠ p) :
    fsExists (fsRemove s p) q = fsExists s q := by
  simp [fsExists, fsLookup, fsRemove, lookupStr_removeKey_ne _ _ _ h]

theorem fsExists_rename_ne (s : CacheState) (src dst q : String)
    (h1 : q ≠ src) (h2 : q ≠ dst) :
    fsExists (fsRename s src dst) q = fsExists s q := by
  unfold fsRename
  cases hl : fsLookup s src with
  | none => rfl
  | some c => rw [fsExists_write_ne _ _ _ _ h2, fsExists_remove_ne _ _ _ h1]

theorem fsExists_createSymlink_dst (s : CacheState) (src dst : String) :
    fsExists (createSymlink s src dst) dst = true := by
  unfold createSymlink
  by_cases h : fsExists s dst = true
  · simp [h]
  · simp [h, fsExists_write_self]

theorem fsExists_createSymlink_ne (s : CacheState) (src dst q : String) (h : q ≠ dst) :
    fsExists (createSymlink s src dst) q = fsExists s q := by
  unfold createSymlink
  by_cases he : fsExists s dst = true
  · simp [he]
  · simp [he, fsExists_write_ne _ _ _ _ h]

theorem transfers_createSymlink (s : CacheState) (src dst : String) :
    (createSymlink s src dst).transfers = s.transfers := by
  unfold createSymlink
  by_cases h : fsExists s dst = true <;> simp [h, fsWrite]

theorem cacheCommit_cases (s : CacheState) (sf rev ch : String) :
    cacheCommitHashForSpecificRevision s sf rev ch = s
    ∨ cacheCommitHashForSpecificRevision s sf rev ch
        = fsWrite s (joinPath (joinPath sf "refs") rev) ch := by
  unfold cacheCommitHashForSpecificRevision
  by_cases h : rev ≠ ch
  · simp only [if_pos h]
    cases fsLookup s (joinPath (joinPath sf "refs") rev) with
    | none => right; rfl
    | some content =>
      by_cases hc : content ≠ ch
      · simp [hc]
      · simp [hc]
  · simp [h]

/-- `dropWhile` at the front commutes with `dropWhile` at the back:
trimming the leading end first gives the same both-ends trim as
trimming the trailing end first. -/
theorem dropWhile_end_comm {α : Type} (p : α → Bool) (l : List α) :
    ((l.dropWhile p).reverse.dropWhile p).reverse
      = (l.reverse.dropWhile p).reverse.dropWhile p := by
  induction l with
  | nil => rfl
  | cons c cs ih =>
    by_cases hc : p c = true
    · rw [List.dropWhile_cons_of_pos hc, ih, List.reverse_cons, List.dropWhile_append]
      by_cases he : (cs.reverse.dropWhile p).isEmpty = true
      · rw [if_pos he]
        rw [List.isEmpty_iff] at he
        rw [he]
        simp [List.dropWhile_cons_of_pos hc]
      · rw [if_neg he, List.reverse_append]
        simp only [List.reverse_cons, List.reverse_nil, List.nil_append, List.singleton_append]
        rw [List.dropWhile_cons_of_pos hc]
    · rw [List.dropWhile_cons_of_neg hc, List.reverse_cons, List.dropWhile_append]
      by_cases he : (cs.reverse.dropWhile p).isEmpty = true
      · rw [if_pos he]
        simp [List.dropWhile_cons_of_neg hc]
      · rw [if_neg he, List.reverse_append]
        simp only [List.reverse_cons, List.reverse_nil, List.nil_append, List.singleton_append]
        rw [List.dropWhile_cons_of_neg hc]

theorem trimBoth_eq_specStripEnds (p : Char → Bool) (s : String) :
    trimBoth p s = String.mk (specStripEnds p s.data) := by
  unfold trimBoth specStripEnds
  exact congrArg String.mk (dropWhile_end_comm p s.data)

theorem hasLead_take2 (l : List Char) :
    hasLead l ['W', '/'] = decide (l.take 2 = ['W', '/']) := by
  rcases l with _ | ⟨c, _ | ⟨d, r⟩⟩
  · rfl
  · by_cases hc : c = 'W' <;> simp [hasLead, List.take, hc]
  · by_cases hc : c = 'W' <;> by_cases hd : d = '/' <;> simp [hasLead, List.take, hc, hd]

/-- The source ETag normalization and the one written from the
specification's words compute the same function. -/
theorem normalizeETag_eq_etagFromSpec (s : String) : normalizeETag s = etagFromSpec s := by
  have hpred : Char.isWhitespace = specIsSpace := funext fun c => rfl
  have key : ∀ ws : List Char,
      trimBoth (fun c => c = '\"')
        (if hasLead ws ['W', '/'] then String.mk (ws.drop 2) else String.mk ws)
      = String.mk (specStripEnds (fun c => c = '\"')
          (if ws.take 2 = ['W', '/'] then ws.drop 2 else ws)) := by
    intro ws
    rw [hasLead_take2]
    by_cases ht : ws.take 2 = ['W', '/']
    · rw [if_pos (decide_eq_true ht), if_pos ht, trimBoth_eq_specStripEnds]
    · rw [if_neg (by simp [ht]), if_neg ht, trimBoth_eq_specStripEnds]
  simp only [normalizeETag, etagFromSpec]
  rw [show trimBoth Char.isWhitespace s = String.mk (specStripEnds specIsSpace s.data) from
        by rw [trimBoth_eq_specStripEnds, hpred]]
  exact key (specStripEnds specIsSpace s.data)



theorem transfers_write (s : CacheState) (p c : String) :
    (fsWrite s p c).transfers = s.transfers := rfl

theorem transfers_remove (s : CacheState) (p : String) :
    (fsRemove s p).transfers = s.transfers := rfl

theorem transfers_rename (s : CacheState) (src dst : String) :
    (fsRename s src dst).transfers = s.transfers := by
  unfold fsRename
  cases fsLookup s src <;> rfl

theorem transfers_bumpNet (s : CacheState) : (bumpNet s).transfers = s.transfers := rfl

theorem transfers_bumpTransfer (s : CacheState) :
    (bumpTransfer s).transfers = s.transfers + 1 := rfl

theorem fsExists_bumpNet (s : CacheState) (q : String) :
    fsExists (bumpNet s) q = fsExists s q := rfl

theorem fsExists_bumpTransfer (s : CacheState) (q : String) :
    fsExists (bumpTransfer s) q = fsExists s q := rfl

theorem dtm_fst (o : Oracle) (s : CacheState) (i d : String) (es : Int) (f : Bool) :
    (downloadToTmpAndMove o s i d es f).1 = .ok () := by
  unfold downloadToTmpAndMove
  by_cases h : (fsExists s d && !f) = true <;> simp [h]

theorem dtm_transfers (o : Oracle) (s : CacheState) (i d : String) (es : Int) (f : Bool) :
    (downloadToTmpAndMove o s i d es f).2.transfers = s.transfers
    ∨ (downloadToTmpAndMove o s i d es f).2.transfers = s.transfers + 1 := by
  unfold downloadToTmpAndMove
  by_cases h : (fsExists s d && !f) = true
  · simp [h]
  · right
    rw [if_neg h]
    dsimp only
    rw [transfers_rename, transfers_bumpTransfer]
    have hbase : (if (fsExists s i && f) = true then fsRemove s i else s).transfers
        = s.transfers := by
      split
      · rw [transfers_remove]
      · rfl
    generalize hZ : (if (fsExists s i && f) = true then fsRemove s i else s) = Z
    rw [hZ] at hbase
    split
    · rw [hbase]
    · rw [transfers_write, hbase]

theorem dtm_fsExists_other (o : Oracle) (s : CacheState) (i d : String) (es : Int) (f : Bool)
    (q : String) (hqi : q ≠ i) (hqd : q ≠ d) :
    fsExists (downloadToTmpAndMove o s i d es f).2 q = fsExists s q := by
  unfold downloadToTmpAndMove
  by_cases h : (fsExists s d && !f) = true
  · simp [h]
  · rw [if_neg h]
    dsimp only
    rw [fsExists_rename_ne _ _ _ _ hqi hqd, fsExists_bumpTransfer]
    have hbase : fsExists (if (fsExists s i && f) = true then fsRemove s i else s) q
        = fsExists s q := by
      split
      · rw [fsExists_remove_ne _ _ _ hqi]
      · rfl
    generalize hZ : (if (fsExists s i && f) = true then fsRemove s i else s) = Z
    rw [hZ] at hbase
    split
    · rw [hbase]
    · rw [fsExists_write_ne _ _ _ _ hqi, hbase]

theorem cacheCommit_transfers (s : CacheState) (sf rev ch : String) :
    (cacheCommitHashForSpecificRevision s sf rev ch).transfers = s.transfers := by
  rcases cacheCommit_cases s sf rev ch with h | h <;> rw [h]
  rw [transfers_write]

theorem cacheCommit_fsExists_other (s : CacheState) (sf rev ch q : String)
    (hq : q ≠ joinPath (joinPath sf "refs") rev) :
    fsExists (cacheCommitHashForSpecificRevision s sf rev ch) q = fsExists s q := by
  rcases cacheCommit_cases s sf rev ch with h | h <;> rw [h]
  rw [fsExists_write_ne _ _ _ _ hq]

theorem cacheCommit_fsExists_mono (s : CacheState) (sf rev ch q : String)
    (h : fsExists s q = true) :
    fsExists (cacheCommitHashForSpecificRevision s sf rev ch) q = true := by
  rcases cacheCommit_cases s sf rev ch with hc | hc <;> rw [hc]
  · exact h
  · by_cases hq : q = joinPath (joinPath sf "refs") rev
    · rw [hq, fsExists_write_self]
    · rw [fsExists_write_ne _ _ _ _ hq]
      exact h

theorem fileDownload_fast_hit
    (o : Oracle) (client : HFClient) (file : HfFile) (lfo : Bool) (t : CacheState)
    (hv : validFileRepoType file.repo.type = true)
    (hfast : (isCommitHash file.revision && fsExists t (fastPointerOf client file)) = true) :
    fileDownload o client file false lfo t = (.ok (fastPointerOf client file), t) := by
  unfold fileDownload
  rw [hv]
  rw [if_neg (by decide)]
  rw [if_pos (show _ = true by rw [hfast]; rfl)]

theorem fileDownload_pointer_hit
    (o : Oracle) (client : HFClient) (file : HfFile) (lfo : Bool) (t : CacheState)
    (m : HfFileMetadata)
    (hv : validFileRepoType file.repo.type = true)
    (hfast : (isCommitHash file.revision && fsExists t (fastPointerOf client file)) = false)
    (hmeta : o.meta = some m)
    (hch : isCommitHash m.commitHash = true)
    (hne : m.commitHash ≠ "")
    (hetag : m.etag ≠ "")
    (hptr : fsExists t (pointerPathOf client file m.commitHash) = true) :
    fileDownload o client file false lfo t
      = (.ok (pointerPathOf client file m.commitHash), bumpNet t) := by
  unfold fileDownload
  rw [hv]
  rw [if_neg (by decide)]
  rw [if_neg (by rw [hfast]; decide)]
  rw [hmeta]
  dsimp only
  rw [if_neg hne]
  dsimp only
  rw [if_neg (show ¬((!(lfo || decide (m.etag ≠ ""))) = true) from by simp [hetag])]
  rw [if_neg (show ¬((decide (m.commitHash ≠ "") && !isCommitHash m.commitHash
        && fsExists (bumpNet t) (refPathOf client file)) = true) from by simp [hch])]
  rw [show (if (decide (m.commitHash ≠ "") && isCommitHash m.commitHash) = true
        then m.commitHash else "") = m.commitHash from by simp [hch, hne]]
  rw [if_pos (show (decide (m.commitHash ≠ "") && fsExists (bumpNet t)
        (pointerPathOf client file m.commitHash) && !false) = true from by
      simp [hne, fsExists_bumpNet, hptr])]

theorem string_ne_empty_of_data {s : String} (h : s.data ≠ []) : s ≠ "" := by
  intro he
  rw [he] at h
  exact h rfl

theorem intercalate_cons_tail {α : Type} (sep : List α) (x : List α) (xs : List (List α)) :
    ∃ t, List.intercalate sep (x :: xs) = x ++ t := by
  cases xs with
  | nil => exact ⟨[], by simp [List.intercalate, List.intersperse]⟩
  | cons y ys =>
    refine ⟨sep ++ (List.intersperse sep (y :: ys)).flatten, ?_⟩
    simp [List.intercalate, List.intersperse]

theorem repoFolderName_ne_empty (repoId repoType : String) :
    repoFolderName repoId repoType ≠ "" := by
  apply string_ne_empty_of_data
  unfold repoFolderName
  obtain ⟨t, ht⟩ := intercalate_cons_tail ['-', '-'] (repoType ++ "s").data
      (splitOnChar '/' repoId.data)
  show (List.intercalate _ _) ≠ []
  rw [ht, String.data_append]
  intro he
  have : (repoType.data ++ "s".data) ++ t = [] := he
  have h2 := congrArg List.length this
  simp at h2

theorem joinPath_ne_empty (a b : String) (hb : b ≠ "") : joinPath a b ≠ "" := by
  unfold joinPath
  by_cases ha : a = ""
  · rw [if_pos ha]; exact hb
  · rw [if_neg ha, if_neg hb]
    apply string_ne_empty_of_data
    rw [String.data_append]
    exact List.append_ne_nil_of_right_ne_nil _ (fun he => hb (congrArg String.mk he))

theorem storageFolderOf_ne_empty (client : HFClient) (file : HfFile) :
    storageFolderOf client file ≠ "" :=
  joinPath_ne_empty _ _ (repoFolderName_ne_empty _ _)

theorem joinPath_data (a b : String) (ha : a ≠ "") (hb : b ≠ "") :
    (joinPath a b).data = a.data ++ '/' :: b.data := by
  unfold joinPath
  rw [if_neg ha, if_neg hb, String.data_append, String.data_append]
  simp

theorem joinPath_tail (a u : String) (ha : a ≠ "") :
    ∃ t, (joinPath a u).data = a.data ++ t := by
  by_cases hu : u = ""
  · exact ⟨[], by rw [hu]; simp [joinPath, ha]⟩
  · exact ⟨'/' :: u.data, joinPath_data a u ha hu⟩

/-- Any path of the form `joinPath (joinPath (joinPath storage tag) u) v`
has data `storage.data ++ '/' :: tag.data ++ rest`. -/
theorem joinPath_chain3_data (storage tag u v : String)
    (hs : storage ≠ "") (ht : tag ≠ "") :
    ∃ rest, (joinPath (joinPath (joinPath storage tag) u) v).data
      = storage.data ++ '/' :: (tag.data ++ rest) := by
  have h1 : (joinPath storage tag).data = storage.data ++ '/' :: tag.data :=
    joinPath_data storage tag hs ht
  have hne1 : joinPath storage tag ≠ "" := joinPath_ne_empty _ _ ht
  obtain ⟨t2, h2⟩ := joinPath_tail (joinPath storage tag) u hne1
  have hne2 : joinPath (joinPath storage tag) u ≠ "" := by
    apply string_ne_empty_of_data
    rw [h2, h1]
    simp
  obtain ⟨t3, h3⟩ := joinPath_tail (joinPath (joinPath storage tag) u) v hne2
  refine ⟨t2 ++ t3, ?_⟩
  rw [h3, h2, h1]
  simp

theorem joinPath_chain2_data (storage tag u : String)
    (hs : storage ≠ "") (ht : tag ≠ "") :
    ∃ rest, (joinPath (joinPath storage tag) u).data
      = storage.data ++ '/' :: (tag.data ++ rest) := by
  have h1 : (joinPath storage tag).data = storage.data ++ '/' :: tag.data :=
    joinPath_data storage tag hs ht
  obtain ⟨t2, h2⟩ := joinPath_tail (joinPath storage tag) u (joinPath_ne_empty _ _ ht)
  refine ⟨t2, ?_⟩
  rw [h2, h1]
  simp

theorem strings_ne_of_second_char {x y : String} (a : List Char) (c d1 d2 : Char)
    (l1 l2 : List Char) (h : d1 ≠ d2)
    (hx : x.data = a ++ c :: d1 :: l1) (hy : y.data = a ++ c :: d2 :: l2) : x ≠ y := by
  intro he
  rw [he, hy] at hx
  have h1 := List.append_cancel_left hx
  have h2 := (List.cons.injEq _ _ _ _).mp h1
  have h3 := (List.cons.injEq _ _ _ _).mp h2.2
  exact h h3.1.symm

theorem fastPointer_ne_refPath (client : HFClient) (file : HfFile) :
    fastPointerOf client file ≠ refPathOf client file := by
  obtain ⟨r1, h1⟩ := joinPath_chain3_data (storageFolderOf client file) "snapshots"
      file.revision (resolvedFileName file) (storageFolderOf_ne_empty _ _) (by decide)
  obtain ⟨r2, h2⟩ := joinPath_chain2_data (storageFolderOf client file) "refs"
      file.revision (storageFolderOf_ne_empty _ _) (by decide)
  rw [show ("snapshots".data) = 's' :: "napshots".data from rfl, List.cons_append] at h1
  rw [show ("refs".data) = 'r' :: "efs".data from rfl, List.cons_append] at h2
  exact strings_ne_of_second_char (storageFolderOf client file).data '/' 's' 'r' _ _
    (by decide) h1 h2

theorem fastPointer_ne_blobPath (client : HFClient) (file : HfFile) (etag : String) :
    fastPointerOf client file ≠ blobPathOf client file etag := by
  obtain ⟨r1, h1⟩ := joinPath_chain3_data (storageFolderOf client file) "snapshots"
      file.revision (resolvedFileName file) (storageFolderOf_ne_empty _ _) (by decide)
  obtain ⟨r2, h2⟩ := joinPath_chain2_data (storageFolderOf client file) "blobs"
      etag (storageFolderOf_ne_empty _ _) (by decide)
  rw [show ("snapshots".data) = 's' :: "napshots".data from rfl, List.cons_append] at h1
  rw [show ("blobs".data) = 'b' :: "lobs".data from rfl, List.cons_append] at h2
  exact strings_ne_of_second_char (storageFolderOf client file).data '/' 's' 'b' _ _
    (by decide) h1 h2

theorem fastPointer_ne_incomplete (client : HFClient) (file : HfFile) (etag : String) :
    fastPointerOf client file ≠ blobPathOf client file etag ++ ".incomplete" := by
  obtain ⟨r1, h1⟩ := joinPath_chain3_data (storageFolderOf client file) "snapshots"
      file.revision (resolvedFileName file) (storageFolderOf_ne_empty _ _) (by decide)
  obtain ⟨r2, h2⟩ := joinPath_chain2_data (storageFolderOf client file) "blobs"
      etag (storageFolderOf_ne_empty _ _) (by decide)
  have h3 : (blobPathOf client file etag ++ ".incomplete").data
      = (storageFolderOf client file).data ++ '/' :: ("blobs".data ++ (r2 ++ ".incomplete".data)) := by
    rw [String.data_append]
    unfold blobPathOf
    rw [h2]
    simp
  rw [show ("snapshots".data) = 's' :: "napshots".data from rfl, List.cons_append] at h1
  rw [show ("blobs".data) = 'b' :: "lobs".data from rfl, List.cons_append] at h3
  exact strings_ne_of_second_char (storageFolderOf client file).data '/' 's' 'b' _ _
    (by decide) h1 h3

theorem fileDownload_run_cases
    (o : Oracle) (client : HFClient) (file : HfFile) (lfo : Bool) (t : CacheState)
    (m : HfFileMetadata)
    (hv : validFileRepoType file.repo.type = true)
    (hfast : (isCommitHash file.revision && fsExists t (fastPointerOf client file)) = false)
    (hmeta : o.meta = some m)
    (hch : isCommitHash m.commitHash = true)
    (hne : m.commitHash ≠ "")
    (hetag : m.etag ≠ "")
    (hptr : fsExists t (pointerPathOf client file m.commitHash) = false) :
    (fsExists (cacheCommitHashForSpecificRevision (bumpNet t) (storageFolderOf client file)
         file.revision m.commitHash) (pointerPathOf client file m.commitHash) = true
       ∧ fileDownload o client file false lfo t
         = (.ok (pointerPathOf client file m.commitHash),
            cacheCommitHashForSpecificRevision (bumpNet t) (storageFolderOf client file)
              file.revision m.commitHash))
    ∨ fileDownload o client file false lfo t
      = (.ok (pointerPathOf client file m.commitHash),
         createSymlink
           (cacheCommitHashForSpecificRevision (bumpNet t) (storageFolderOf client file)
             file.revision m.commitHash)
           (blobPathOf client file m.etag) (pointerPathOf client file m.commitHash))
    ∨ fileDownload o client file false lfo t
      = (.ok (pointerPathOf client file m.commitHash),
         createSymlink
           (downloadToTmpAndMove o
             (cacheCommitHashForSpecificRevision (bumpNet t) (storageFolderOf client file)
               file.revision m.commitHash)
             (blobPathOf client file m.etag ++ ".incomplete") (blobPathOf client file m.etag)
             m.size false).2
           (blobPathOf client file m.etag) (pointerPathOf client file m.commitHash)) := by
  unfold fileDownload
  rw [hv]
  rw [if_neg (by decide)]
  rw [if_neg (by rw [hfast]; decide)]
  rw [hmeta]
  dsimp only
  rw [if_neg hne]
  dsimp only
  rw [if_neg (show ¬((!(lfo || decide (m.etag ≠ ""))) = true) from by simp [hetag])]
  rw [if_neg (show ¬((decide (m.commitHash ≠ "") && !isCommitHash m.commitHash
        && fsExists (bumpNet t) (refPathOf client file)) = true) from by simp [hch])]
  rw [show (if (decide (m.commitHash ≠ "") && isCommitHash m.commitHash) = true
        then m.commitHash else "") = m.commitHash from by simp [hch, hne]]
  rw [if_neg (show ¬((decide (m.commitHash ≠ "") && fsExists (bumpNet t)
        (pointerPathOf client file m.commitHash) && !false) = true) from by
      simp [fsExists_bumpNet, hptr])]
  by_cases h3 : fsExists (cacheCommitHashForSpecificRevision (bumpNet t)
      (storageFolderOf client file) file.revision m.commitHash)
      (pointerPathOf client file m.commitHash) = true
  · left
    refine ⟨h3, ?_⟩
    rw [if_pos (by simp [h3])]
  · right
    rw [if_neg (by simp [h3])]
    by_cases h4 : fsExists (cacheCommitHashForSpecificRevision (bumpNet t)
        (storageFolderOf client file) file.revision m.commitHash)
        (blobPathOf client file m.etag) = true
    · left
      rw [if_pos (by simp [h4])]
    · right
      rw [if_neg (by simp [h4])]
      rcases hdtm : downloadToTmpAndMove o
          (cacheCommitHashForSpecificRevision (bumpNet t) (storageFolderOf client file)
            file.revision m.commitHash)
          (blobPathOf client file m.etag ++ ".incomplete") (blobPathOf client file m.etag)
          m.size false with ⟨r, s4⟩
      have hr := dtm_fst o
          (cacheCommitHashForSpecificRevision (bumpNet t) (storageFolderOf client file)
            file.revision m.commitHash)
          (blobPathOf client file m.etag ++ ".incomplete") (blobPathOf client file m.etag)
          m.size false
      rw [hdtm] at hr
      dsimp only at hr
      subst hr
      rfl


theorem bool_eq_false_of_not {b : Bool} (h : ¬(b = true)) : b = false := by
  cases b
  · rfl
  · exact absurd rfl h

theorem secondCall_ok
    (o : Oracle) (client : HFClient) (file : HfFile) (lfo : Bool) (t : CacheState)
    (m : HfFileMetadata)
    (hv : validFileRepoType file.repo.type = true)
    (hmeta : o.meta = some m)
    (hch : isCommitHash m.commitHash = true)
    (hne : m.commitHash ≠ "")
    (hetag : m.etag ≠ "")
    (hptr : fsExists t (pointerPathOf client file m.commitHash) = true)
    (hcond : (isCommitHash file.revision && fsExists t (fastPointerOf client file)) = false
      ∨ fastPointerOf client file = pointerPathOf client file m.commitHash) :
    (fileDownload o client file false lfo t).1 = .ok (pointerPathOf client file m.commitHash)
    ∧ (fileDownload o client file false lfo t).2.transfers = t.transfers := by
  rcases hcond with hf | hf
  · rw [fileDownload_pointer_hit o client file lfo t m hv hf hmeta hch hne hetag hptr]
    exact ⟨rfl, rfl⟩
  · by_cases hfast : (isCommitHash file.revision && fsExists t (fastPointerOf client file)) = true
    · rw [fileDownload_fast_hit o client file lfo t hv hfast]
      exact ⟨by rw [hf], rfl⟩
    · rw [fileDownload_pointer_hit o client file lfo t m hv (bool_eq_false_of_not hfast)
        hmeta hch hne hetag hptr]
      exact ⟨rfl, rfl⟩

/-! ## Claim theorems -/

/-- **C1.**  The claim states that a snapshot pointer is created only
after the blob transfer completed successfully and was atomically
renamed into place, so no pointer ever references a partially-written
blob.  The code violates this: with a stream that delivers only 7 of
the 12 expected bytes, `HttpGet` fails with the consistency error, yet
`downloadToTmpAndMove` merely prints that error, renames the partial
`.incomplete` file onto the blob path and returns `nil`, after which
`fileDownload` creates the snapshot pointer and reports success — the
pointer references a partially-written blob. -/
theorem fileDownload_publishes_pointer_after_failed_transfer :
    httpGet oC1.resp 0 12 0 DefaultRetries = .error (.consistency 12 7)
    ∧ (fileDownload oC1 clientC1 fileC1 false false stEmpty).1 = .ok ptrC1
    ∧ fsExists (fileDownload oC1 clientC1 fileC1 false false stEmpty).2 ptrC1 = true
    ∧ fsExists (fileDownload oC1 clientC1 fileC1 false false stEmpty).2 blobC1 = true
    ∧ (fileDownload oC1 clientC1 fileC1 false false stEmpty).2.transfers = 1 := by
  decide

/-- **C2.**  The claim states that a mismatch between the bytes written
and the expected size makes `FileDownload` return a fatal consistency
error rather than success.  The streaming loop does produce that error
(first conjunct), but `downloadToTmpAndMove` discards it, so the
overall `fileDownload` call returns the pointer path with no error:
with 5 of 20 expected bytes delivered, the call still succeeds. -/
theorem fileDownload_succeeds_despite_size_mismatch :
    httpGet oC2.resp 0 20 0 DefaultRetries = .error (.consistency 20 5)
    ∧ (fileDownload oC2 clientC1 fileC2 false false stEmpty).1 = .ok ptrC2
    ∧ (fileDownload oC2 clientC1 fileC2 false false stEmpty).2.transfers = 1 := by
  decide

/-- **C3.**  The retry budget of the streaming download starts at the
default of 5 (`DefaultRetries`, and `downloadToTmpAndMove` passes the
literal 5), a chunk that writes at least one byte resets the remaining
budget back to 5, the budget is decremented only on the error path (a
run of the loop never consumes budget, so the result is independent of
any positive starting budget), and a request that keeps failing with
zero forward progress exhausts the budget with the fatal
"max retries exceeded" error. -/
theorem httpGet_retry_budget_policy :
    DefaultRetries = 5
    ∧ (∀ es ev w nb n, 0 < n →
        streamLoop es (ReadEvent.chunk n :: ev) w (nb + 1)
          = streamLoop es ev (w + n) DefaultRetries)
    ∧ (∀ es ev w nb nb2, streamLoop es ev w (nb + 1) = streamLoop es ev w (nb2 + 1))
    ∧ (∀ resp w es a nb,
        (∀ k, (resp k).contentLength = none ∧ (resp k).timeoutErr = true) →
        httpGet resp w es a nb = .error .maxRetries) := by
  refine ⟨rfl, ?_, ?_, ?_⟩
  · intro es ev w nb n hn
    rw [streamLoop, if_pos hn]
    rfl
  · intro es ev w nb nb2
    induction ev generalizing w with
    | nil => rw [streamLoop, streamLoop]
    | cons e t ih =>
      cases e with
      | chunk n =>
        by_cases hn : n > 0
        · rw [streamLoop, if_pos hn, streamLoop, if_pos hn]
        · rw [streamLoop, if_neg hn, streamLoop, if_neg hn]
          exact ih w
      | readErr => rw [streamLoop, streamLoop]
  · intro resp w es a nb h
    induction nb generalizing a with
    | zero =>
      rw [httpGet]
      rw [(h a).1]
    | succ k ih =>
      rw [httpGet]
      rw [(h a).1]
      rw [if_pos (h a).2]
      exact ih (a + 1)

/-- Witness for **C3** at concrete inputs. -/
theorem httpGet_retry_budget_policy_witness :
    streamLoop 12 [ReadEvent.chunk 3] 0 4 = streamLoop 12 [] 3 DefaultRetries
    ∧ httpGet respAllTimeout 0 12 0 5 = .error .maxRetries :=
  ⟨httpGet_retry_budget_policy.2.1 12 [] 0 3 3 (by decide),
   httpGet_retry_budget_policy.2.2.2 respAllTimeout 0 12 0 5 (fun _ => ⟨rfl, rfl⟩)⟩

/-- **C4.**  For every HEAD response from which metadata is produced,
the stored ETag is the normalization of `X-Linked-Etag` when that
header is present and of `ETag` otherwise; the stored size is the
parse of `X-Linked-Size` when present and of `Content-Length`
otherwise; and the normalization function agrees everywhere with the
spec-side description (surrounding whitespace, one leading `W/`, and
surrounding double quotes stripped, in that order). -/
theorem getFileMetadata_extraction :
    (∀ r m, getFileMetadata r = some m →
        m.etag = normalizeETag (if r.xLinkedEtag ≠ "" then r.xLinkedEtag else r.etagHeader)
        ∧ m.commitHash = r.xRepoCommit
        ∧ (r.xLinkedSize ≠ "" → atoi r.xLinkedSize = some m.size)
        ∧ (r.xLinkedSize = "" → atoi r.contentLength = some m.size))
    ∧ ∀ s, normalizeETag s = etagFromSpec s := by
  constructor
  · intro r m h
    simp only [getFileMetadata, ne_eq] at h
    cases hA : atoi (if ¬r.xLinkedSize = "" then r.xLinkedSize else r.contentLength) with
    | none => rw [hA] at h; exact absurd h (by simp)
    | some size =>
      rw [hA] at h
      have hm := (Option.some.inj h).symm
      subst hm
      refine ⟨by simp only [ne_eq], rfl, ?_, ?_⟩
      · intro hx
        rw [if_pos hx] at hA
        exact hA
      · intro hx
        rw [if_neg (by simp [hx])] at hA
        exact hA
  · exact normalizeETag_eq_etagFromSpec

/-- Witness for **C4** at a concrete response carrying both
specialized headers and a whitespace-padded weak quoted ETag. -/
theorem getFileMetadata_extraction_witness :
    getFileMetadata rC4 = some mC4
    ∧ mC4.etag = normalizeETag "  W/\"abc\"  "
    ∧ atoi "12" = some mC4.size
    ∧ normalizeETag "  W/\"abc\"  " = etagFromSpec "  W/\"abc\"  " := by
  refine ⟨by decide, ?_, ?_, getFileMetadata_extraction.2 _⟩
  · have h := (getFileMetadata_extraction.1 rC4 mC4 (by decide)).1
    simpa using h
  · exact (getFileMetadata_extraction.1 rC4 mC4 (by decide)).2.2.1 (by decide)

/-- **C5.**  The claim states that local-only mode issues no network
request in either file or snapshot resolution.  The code violates
this: with `localFilesOnly = true` and an uncached file,
`fileDownload` still performs the HEAD metadata fetch and the content
transfer (2 network operations), and `snapshotDownload` still calls
`getModelInfo` unconditionally (1 network operation) — and then, when
the manifest request succeeds, fails with the local-only error even
though traffic was supposedly disabled. -/
theorem localFilesOnly_still_issues_network_requests :
    (fileDownload oC1 clientC1 fileC1 false true stEmpty).2.netOps = 2
    ∧ (fileDownload oC1 clientC1 fileC1 false true stEmpty).2.transfers = 1
    ∧ (snapshotDownload oC5 clientC1 repoC5 false true stEmpty).2.netOps = 1
    ∧ (snapshotDownload oC5 clientC1 repoC5 false true stEmpty).1
        = .error "cannot find an appropriate cached snapshot folder for the specified revision on the local disk and outgoing traffic has been disabled. To enable repo look-ups and downloads online, set localFilesOnly to false" := by
  decide

/-- **C6.**  The redirect recursion of the request wrapper has a
bounded maximum depth, so for every response sequence — including a
server that always answers a 3xx with a relative `Location` — the
function terminates rather than recursing without bound: fuel 3 is
never exhausted, for any network oracle.  The bound holds because a
relative redirect rebuilds the next URL without scheme and host, so
the follow-up request always fails and at most one redirect hop is
ever followed; the always-redirecting server makes the call return
the request error after that single hop. -/
theorem requestWrapper_redirect_depth_bounded :
    (∀ (serve : String → Except String WireResponse) (fuel : Nat) (url : String) (follow : Bool),
        3 ≤ fuel → requestWrapperFuel serve fuel url follow ≠ none)
    ∧ (∀ fuel url, 3 ≤ fuel →
        requestWrapperFuel alwaysRedirect fuel url true
          = some (.error "unsupported protocol scheme")) := by
  have inner : ∀ (serve : String → Except String WireResponse) (j : Nat) (u : String),
      requestWrapperFuel serve (j + 1) u false = some (doReq serve u) := by
    intro serve j u
    rw [requestWrapperFuel]
    rw [if_neg (by decide)]
  have key : ∀ (serve : String → Except String WireResponse) (k : Nat) (url : String)
      (follow : Bool), ∃ r, requestWrapperFuel serve (k + 3) url follow = some r := by
    intro serve k url follow
    cases follow with
    | false => exact ⟨doReq serve url, inner serve (k + 2) url⟩
    | true =>
      rw [requestWrapperFuel]
      rw [if_pos rfl]
      rw [show requestWrapperFuel serve (k + 2) url false = some (doReq serve url)
        from inner serve (k + 1) url]
      cases hd : doReq serve url with
      | error e => exact ⟨.error e, rfl⟩
      | ok r =>
        dsimp only
        by_cases hred : 300 ≤ r.status ∧ r.status ≤ 399 ∧ hostOf r.location = ""
        · rw [if_pos hred]
          rw [requestWrapperFuel]
          rw [if_pos rfl]
          rw [inner serve k r.location]
          rw [show doReq serve r.location = .error "unsupported protocol scheme" from by
            unfold doReq
            rw [if_pos hred.2.2]]
          exact ⟨.error "unsupported protocol scheme", rfl⟩
        · rw [if_neg hred]
          exact ⟨.ok r, rfl⟩
  constructor
  · intro serve fuel url follow hf
    obtain ⟨k, rfl⟩ : ∃ k, fuel = k + 3 := ⟨fuel - 3, by omega⟩
    obtain ⟨r, hr⟩ := key serve k url follow
    rw [hr]
    exact Option.some_ne_none r
  · intro fuel url hf
    obtain ⟨k, rfl⟩ : ∃ k, fuel = k + 3 := ⟨fuel - 3, by omega⟩
    rw [requestWrapperFuel]
    rw [if_pos rfl]
    rw [show requestWrapperFuel alwaysRedirect (k + 2) url false
      = some (doReq alwaysRedirect url) from inner alwaysRedirect (k + 1) url]
    by_cases hu : hostOf url = ""
    · rw [show doReq alwaysRedirect url = .error "unsupported protocol scheme" from by
        unfold doReq
        rw [if_pos hu]]
    · rw [show doReq alwaysRedirect url = .ok { status := 300, location := "/loop" } from by
        unfold doReq
        rw [if_neg hu]
        rfl]
      dsimp only
      rw [if_pos (show 300 ≤ (300 : Nat) ∧ (300 : Nat) ≤ 399 ∧ hostOf "/loop" = ""
        from by decide)]
      rw [requestWrapperFuel]
      rw [if_pos rfl]
      rw [inner alwaysRedirect k "/loop"]
      rw [show doReq alwaysRedirect "/loop" = .error "unsupported protocol scheme" from by
        decide]

/-- Witness for **C6**: fuel 3 completes on a concrete URL against the
always-redirecting server, returning the request error. -/
theorem requestWrapper_redirect_depth_bounded_witness :
    requestWrapperFuel alwaysRedirect 3 "https://huggingface.co/x" true ≠ none
    ∧ requestWrapperFuel alwaysRedirect 3 "https://huggingface.co/x" true
        = some (.error "unsupported protocol scheme") :=
  ⟨requestWrapper_redirect_depth_bounded.1 alwaysRedirect 3 "https://huggingface.co/x" true
      (by decide),
   requestWrapper_redirect_depth_bounded.2 3 "https://huggingface.co/x" (by decide)⟩

/-- **C7.**  When the final resolved location host differs from the
API host, the headers map is stripped of its `authorization` entry and
the download GET built from it carries no `Authorization` header (with
the map `fileDownload` actually builds, it never carries one); when
the hosts agree — in particular after a same-host relative redirect —
the strip step leaves every headers map unchanged. -/
theorem download_request_auth_header_policy :
    ∀ (ua location hfUrl : String),
      (hostOf location ≠ hostOf hfUrl →
        carriesHeader (downloadHeaders ua location hfUrl) "Authorization" = false
        ∧ ∀ hs, lookupStr (stripAuthIfCrossHost hs location hfUrl) "authorization" = none)
      ∧ (hostOf location = hostOf hfUrl →
        ∀ hs, stripAuthIfCrossHost hs location hfUrl = hs) := by
  intro ua location hfUrl
  constructor
  · intro hne
    have hl : location ≠ hfUrl := fun he => hne (by rw [he])
    constructor
    · unfold downloadHeaders stripAuthIfCrossHost
      rw [if_pos hl, if_pos hne]
      simp [mutateForMetadata, fileDownloadHeaders, setHeader, removeKey,
            carriesHeader, canonicalHeaderKey, canonChars, defaultUserAgent]
    · intro hs
      unfold stripAuthIfCrossHost
      rw [if_pos hl, if_pos hne]
      exact lookupStr_removeKey_self hs "authorization"
  · intro heq hs
    unfold stripAuthIfCrossHost
    by_cases hl : location ≠ hfUrl
    · rw [if_pos hl, if_neg (fun hc => hc heq)]
    · rw [if_neg hl]

/-- Witness for **C7**: a cross-host redirect to blob storage drops
the credential, a same-host redirect preserves the map. -/
theorem download_request_auth_header_policy_witness :
    carriesHeader (downloadHeaders "ua" "https://cdn.example.com/obj" "https://huggingface.co/r")
        "Authorization" = false
    ∧ lookupStr (stripAuthIfCrossHost [("authorization", "Bearer x")]
        "https://cdn.example.com/obj" "https://huggingface.co/r") "authorization" = none
    ∧ stripAuthIfCrossHost [("authorization", "Bearer x")]
        "https://huggingface.co/a" "https://huggingface.co/b" = [("authorization", "Bearer x")] :=
  ⟨((download_request_auth_header_policy "ua" _ _).1 (by decide)).1,
   ((download_request_auth_header_policy "ua" _ _).1 (by decide)).2 _,
   (download_request_auth_header_policy "ua" _ _).2 (by decide) _⟩

/-- **C9.**  The claim states that insufficient free space on the
staging and destination filesystems is a fatal pre-flight error that
prevents the transfer from starting.  The code violates this: with a
stat oracle reporting 3 bytes available against an expected size of
12, `checkDiskSpace` returns the "not enough free disk space" error
for both paths, yet `downloadToTmpAndMove` discards both results,
starts the transfer anyway, publishes the blob and returns success. -/
theorem diskSpace_error_ignored_transfer_proceeds :
    checkDiskSpace oC9.statSize 12 "store/blobs/e9.incomplete"
        = .error "not enough free disk space to download the file"
    ∧ checkDiskSpace oC9.statSize 12 "store/blobs/e9"
        = .error "not enough free disk space to download the file"
    ∧ (downloadToTmpAndMove oC9 stEmpty "store/blobs/e9.incomplete" "store/blobs/e9" 12 false).1
        = .ok ()
    ∧ (downloadToTmpAndMove oC9 stEmpty
        "store/blobs/e9.incomplete" "store/blobs/e9" 12 false).2.transfers = 1
    ∧ fsExists (downloadToTmpAndMove oC9 stEmpty
        "store/blobs/e9.incomplete" "store/blobs/e9" 12 false).2 "store/blobs/e9" = true := by
  decide

/-- **C10.**  `SnapshotDownload` rejects every repository whose type
is not `model` with the "invalid repo type" error before any network
or filesystem operation (the state is returned untouched), while the
single-file download's repo-type guard accepts all three repository
types. -/
theorem snapshotDownload_rejects_non_model_types :
    (∀ (o : Oracle) (client : HFClient) (repo : HfRepo) (force lfo : Bool) (s : CacheState),
        repo.type ≠ "model" →
        SnapshotDownload o client repo force lfo s
          = (.error ("invalid repo type: " ++ repo.type), s))
    ∧ validFileRepoType "model" = true
    ∧ validFileRepoType "dataset" = true
    ∧ validFileRepoType "space" = true := by
  refine ⟨?_, by decide, by decide, by decide⟩
  intro o client repo force lfo s h
  unfold SnapshotDownload
  rw [if_pos h]

/-- Witness for **C10**: a dataset repo is rejected with the exact
error and an unchanged state. -/
theorem snapshotDownload_rejects_non_model_types_witness :
    SnapshotDownload oC1 clientC1 { id := "org/data", type := "dataset", revision := "main" }
        false false stEmpty
      = (.error "invalid repo type: dataset", stEmpty) :=
  snapshotDownload_rejects_non_model_types.1 oC1 clientC1 _ false false stEmpty (by decide)


/-- **C8.**  Calling `fileDownload` twice with identical arguments and
`forceDownload = false` performs at most one content transfer: whenever
the first call succeeds (against a server whose reported commit hash is
a well-formed 40-hex hash and whose ETag is non-empty), the second call
returns the same pointer path as the first and performs no transfer,
and the two calls together perform at most one transfer. -/

theorem fileDownload_second_call_cache_hit
    (o : Oracle) (client : HFClient) (file : HfFile) (lfo : Bool)
    (s0 s1 : CacheState) (m : HfFileMetadata) (p : String)
    (hmeta : o.meta = some m)
    (hch : isCommitHash m.commitHash = true)
    (hetag : m.etag ≠ "")
    (h1 : fileDownload o client file false lfo s0 = (.ok p, s1)) :
    (fileDownload o client file false lfo s1).1 = .ok p
    ∧ (fileDownload o client file false lfo s1).2.transfers = s1.transfers
    ∧ s1.transfers ≤ s0.transfers + 1 := by
  have hne : m.commitHash ≠ "" := by
    intro he
    rw [he] at hch
    exact absurd hch (by decide)
  by_cases hv : validFileRepoType file.repo.type = true
  case neg =>
    exfalso
    have hvf := bool_eq_false_of_not hv
    unfold fileDownload at h1
    rw [hvf] at h1
    rw [if_pos (by decide)] at h1
    exact absurd (congrArg Prod.fst h1) (by simp)
  case pos =>
  by_cases hfast : (isCommitHash file.revision && fsExists s0 (fastPointerOf client file)) = true
  · have hrun := fileDownload_fast_hit o client file lfo s0 hv hfast
    rw [hrun] at h1
    have hpp : fastPointerOf client file = p := Except.ok.inj (congrArg Prod.fst h1)
    have hs : s0 = s1 := congrArg Prod.snd h1
    subst hs
    refine ⟨?_, ?_, Nat.le_succ _⟩
    · rw [hrun, hpp]
    · rw [hrun]
  · have hfastf := bool_eq_false_of_not hfast
    -- under a fast-path miss, nonexistence of the fast pointer survives
    -- the writes of the first call unless the fast pointer IS the pointer
    have hfastCarry : ∀ t : CacheState,
        fsExists t (fastPointerOf client file) = fsExists s0 (fastPointerOf client file) →
        (isCommitHash file.revision && fsExists t (fastPointerOf client file)) = false := by
      intro t ht
      cases hrev : isCommitHash file.revision
      · rfl
      · rw [hrev] at hfastf
        rw [ht]
        exact hfastf
    by_cases hptr0 : fsExists s0 (pointerPathOf client file m.commitHash) = true
    · -- the first call already hit the pointer
      have hrun := fileDownload_pointer_hit o client file lfo s0 m hv hfastf hmeta hch hne
        hetag hptr0
      rw [hrun] at h1
      have hpp : pointerPathOf client file m.commitHash = p := Except.ok.inj (congrArg Prod.fst h1)
      have hs : bumpNet s0 = s1 := congrArg Prod.snd h1
      have hA : fsExists s1 (pointerPathOf client file m.commitHash) = true := by
        rw [← hs]; exact hptr0
      have hcond :
          (isCommitHash file.revision && fsExists s1 (fastPointerOf client file)) = false
          ∨ fastPointerOf client file = pointerPathOf client file m.commitHash :=
        Or.inl (hfastCarry s1 (by rw [← hs]; rfl))
      obtain ⟨hc1, hc2⟩ := secondCall_ok o client file lfo s1 m hv hmeta hch hne hetag hA hcond
      refine ⟨by rw [hc1, hpp], hc2, ?_⟩
      rw [← hs]
      exact Nat.le_succ _
    · have hptr0f := bool_eq_false_of_not hptr0
      rcases fileDownload_run_cases o client file lfo s0 m hv hfastf hmeta hch hne hetag hptr0f
        with ⟨hg, hrun⟩ | hrun | hrun
      · -- branch 1: pointer appeared through the refs write
        rw [hrun] at h1
        have hpp : pointerPathOf client file m.commitHash = p :=
          Except.ok.inj (congrArg Prod.fst h1)
        have hs : cacheCommitHashForSpecificRevision (bumpNet s0) (storageFolderOf client file)
            file.revision m.commitHash = s1 := congrArg Prod.snd h1
        have hA : fsExists s1 (pointerPathOf client file m.commitHash) = true := by
          rw [← hs]; exact hg
        have hcond :
            (isCommitHash file.revision && fsExists s1 (fastPointerOf client file)) = false
            ∨ fastPointerOf client file = pointerPathOf client file m.commitHash := by
          by_cases hfp : fastPointerOf client file = pointerPathOf client file m.commitHash
          · exact Or.inr hfp
          · refine Or.inl (hfastCarry s1 ?_)
            rw [← hs]
            rw [cacheCommit_fsExists_other _ _ _ _ _ (fastPointer_ne_refPath client file)]
            rfl
        obtain ⟨hc1, hc2⟩ := secondCall_ok o client file lfo s1 m hv hmeta hch hne hetag hA hcond
        refine ⟨by rw [hc1, hpp], hc2, ?_⟩
        rw [← hs, cacheCommit_transfers]
        exact Nat.le_succ _
      · -- branch 2: pointer materialized from an existing blob
        rw [hrun] at h1
        have hpp : pointerPathOf client file m.commitHash = p :=
          Except.ok.inj (congrArg Prod.fst h1)
        have hs : createSymlink
            (cacheCommitHashForSpecificRevision (bumpNet s0) (storageFolderOf client file)
              file.revision m.commitHash)
            (blobPathOf client file m.etag) (pointerPathOf client file m.commitHash)
            = s1 := congrArg Prod.snd h1
        have hA : fsExists s1 (pointerPathOf client file m.commitHash) = true := by
          rw [← hs]; exact fsExists_createSymlink_dst _ _ _
        have hcond :
            (isCommitHash file.revision && fsExists s1 (fastPointerOf client file)) = false
            ∨ fastPointerOf client file = pointerPathOf client file m.commitHash := by
          by_cases hfp : fastPointerOf client file = pointerPathOf client file m.commitHash
          · exact Or.inr hfp
          · refine Or.inl (hfastCarry s1 ?_)
            rw [← hs]
            rw [fsExists_createSymlink_ne _ _ _ _ hfp]
            rw [cacheCommit_fsExists_other _ _ _ _ _ (fastPointer_ne_refPath client file)]
            rfl
        obtain ⟨hc1, hc2⟩ := secondCall_ok o client file lfo s1 m hv hmeta hch hne hetag hA hcond
        refine ⟨by rw [hc1, hpp], hc2, ?_⟩
        rw [← hs, transfers_createSymlink, cacheCommit_transfers]
        exact Nat.le_succ _
      · -- branch 3: the download path
        rw [hrun] at h1
        have hpp : pointerPathOf client file m.commitHash = p :=
          Except.ok.inj (congrArg Prod.fst h1)
        have hs : createSymlink
            (downloadToTmpAndMove o
              (cacheCommitHashForSpecificRevision (bumpNet s0) (storageFolderOf client file)
                file.revision m.commitHash)
              (blobPathOf client file m.etag ++ ".incomplete") (blobPathOf client file m.etag)
              m.size false).2
            (blobPathOf client file m.etag) (pointerPathOf client file m.commitHash)
            = s1 := congrArg Prod.snd h1
        have hA : fsExists s1 (pointerPathOf client file m.commitHash) = true := by
          rw [← hs]; exact fsExists_createSymlink_dst _ _ _
        have hcond :
            (isCommitHash file.revision && fsExists s1 (fastPointerOf client file)) = false
            ∨ fastPointerOf client file = pointerPathOf client file m.commitHash := by
          by_cases hfp : fastPointerOf client file = pointerPathOf client file m.commitHash
          · exact Or.inr hfp
          · refine Or.inl (hfastCarry s1 ?_)
            rw [← hs]
            rw [fsExists_createSymlink_ne _ _ _ _ hfp]
            rw [dtm_fsExists_other _ _ _ _ _ _ _
              (fastPointer_ne_incomplete client file m.etag)
              (fastPointer_ne_blobPath client file m.etag)]
            rw [cacheCommit_fsExists_other _ _ _ _ _ (fastPointer_ne_refPath client file)]
            rfl
        obtain ⟨hc1, hc2⟩ := secondCall_ok o client file lfo s1 m hv hmeta hch hne hetag hA hcond
        refine ⟨by rw [hc1, hpp], hc2, ?_⟩
        rw [← hs, transfers_createSymlink]
        rcases dtm_transfers o
            (cacheCommitHashForSpecificRevision (bumpNet s0) (storageFolderOf client file)
              file.revision m.commitHash)
            (blobPathOf client file m.etag ++ ".incomplete") (blobPathOf client file m.etag)
            m.size false with ht | ht
        · rw [ht, cacheCommit_transfers]
          exact Nat.le_succ _
        · rw [ht, cacheCommit_transfers]
          exact Nat.le_refl _

/-- Witness for **C8**: the two calls on the `config.json` fixture. -/
theorem fileDownload_second_call_cache_hit_witness :
    (fileDownload oC1 clientC1 fileC1 false false s1C8).1 = .ok ptrC1
    ∧ (fileDownload oC1 clientC1 fileC1 false false s1C8).2.transfers = s1C8.transfers
    ∧ s1C8.transfers ≤ stEmpty.transfers + 1 :=
  fileDownload_second_call_cache_hit oC1 clientC1 fileC1 false stEmpty s1C8 metaC1 ptrC1
    rfl (by decide) (by decide) (by decide)

end HfHub
